import Mathlib

/-!
# 2048 game engine: formalisation of the Go backend

Shallow embedding of the board engine of the 2048 repository
(`GameState`, `spawnTile`, `rotateRight`, `rotateLeft`, `rotate180`,
`applyMove`, `canMove`, `checkWin` from the game-logic file of the Go
backend, and the move-request sequencing of `moveHandler` from
`backend/handlers.go`).

The board `[4][4]int` is embedded as a list of list of naturals together
with the well-formedness predicate `Board.Wf` (4 rows of 4 cells); cell
values are never negative in any reachable state, so `ℕ` is faithful.
Go's `rand` calls in `spawnTile` are modelled by injected parameters
(an index choice and a 2-vs-4 choice), as the spec's design notes ask
("keep the random source injectable").
-/

namespace Game2048

/-- The board: embeds Go's `[4][4]int`. -/
abbrev Board := List (List ℕ)

/-- Well-formed board: exactly 4 rows, each of exactly 4 cells
(the shape of `[4][4]int`). -/
def Board.Wf (b : Board) : Prop :=
  b.length = 4 ∧ ∀ row ∈ b, row.length = 4

instance (b : Board) : Decidable b.Wf := by
  unfold Board.Wf; infer_instance

/-- Cell read `board[r][c]`; the default 0 is never hit on a
well-formed board at indices < 4. -/
def idx (b : Board) (r c : ℕ) : ℕ :=
  (b.getD r []).getD c 0

/-- Embeds Go's `GameState` struct; `CreatedAt time.Time` is an opaque
timestamp, embedded as a natural number. -/
structure GameState where
  id : String
  board : Board
  score : ℕ
  gameOver : Bool
  won : Bool
  createdAt : ℕ
deriving DecidableEq

/-- Go `rotateRight`: `temp[c][3-r] = board[r][c]`, i.e. the new cell
`(i, j)` holds the old cell `(3-j, i)`. -/
def rotateRight (b : Board) : Board :=
  (List.range 4).map fun i => (List.range 4).map fun j => idx b (3 - j) i

/-- Go `rotateLeft`: `temp[3-c][r] = board[r][c]`, i.e. the new cell
`(i, j)` holds the old cell `(j, 3-i)`. -/
def rotateLeft (b : Board) : Board :=
  (List.range 4).map fun i => (List.range 4).map fun j => idx b j (3 - i)

/-- Go `rotate180`: two `rotateRight`s. -/
def rotate180 (b : Board) : Board :=
  rotateRight (rotateRight b)

/-- The merge scan of `applyMove` (lines `for j := 0; j < len(temp)-1; j++ …`):
on the zero-free sequence, an adjacent equal pair is replaced by its double,
the doubled value is added to the score, and the scan resumes after the
merged cell (`j++` after the shrink).  Returns the merged sequence and the
score gained. -/
def mergePairs : List ℕ → List ℕ × ℕ
  | [] => ([], 0)
  | [a] => ([a], 0)
  | a :: b :: rest =>
    if a = b then
      let p := mergePairs rest
      (2 * a :: p.1, 2 * a + p.2)
    else
      let p := mergePairs (b :: rest)
      (a :: p.1, p.2)

/-- One line of `applyMove`'s compaction: extract non-zero cells, merge
adjacent equal pairs, pad with zeros back to length 4.
Returns the new row and the score gained. -/
def compactRow (row : List ℕ) : List ℕ × ℕ :=
  let t := row.filter fun x => x ≠ 0
  let p := mergePairs t
  (p.1 ++ List.replicate (4 - p.1.length) 0, p.2)

/-- The per-row movement test of `applyMove`
(`if board[i][j] != temp[j] { moved = true }`). -/
def rowMoved (old new : List ℕ) : Bool :=
  (List.range 4).any fun j => old.getD j 0 ≠ new.getD j 0

/-- The pre-compaction reorientation switch of `applyMove`: `up` rotates
left, `down` rotates right, `right` rotates 180°; any other string
(including `left`) matches no case and leaves the board as is. -/
def preRotate (dir : String) (b : Board) : Board :=
  if dir = "up" then rotateLeft b
  else if dir = "down" then rotateRight b
  else if dir = "right" then rotate180 b
  else b

/-- The post-compaction reorientation switch of `applyMove`: the inverse
rotation of `preRotate` per direction. -/
def postRotate (dir : String) (b : Board) : Board :=
  if dir = "up" then rotateRight b
  else if dir = "down" then rotateLeft b
  else if dir = "right" then rotate180 b
  else b

/-- The row loop of `applyMove`: compact every row, sum the score gains,
OR the per-row movement flags. -/
def compactBoard (b : Board) : Board × ℕ × Bool :=
  (b.map fun row => (compactRow row).1,
   (b.map fun row => (compactRow row).2).sum,
   b.any fun row => rowMoved row (compactRow row).1)

/-- Go `applyMove`: reorient, compact all rows (accumulating score),
reorient back, write the board, return the `moved` flag. -/
def applyMove (g : GameState) (dir : String) : GameState × Bool :=
  let b := preRotate dir g.board
  let p := compactBoard b
  ({ g with board := postRotate dir p.1, score := g.score + p.2.1 }, p.2.2)

/-- The empty-cell enumeration of `spawnTile` (row-major, as the Go
double loop produces it). -/
def emptyCells (b : Board) : List (ℕ × ℕ) :=
  (List.range 4).flatMap fun r =>
    (List.range 4).filterMap fun c =>
      if idx b r c = 0 then some (r, c) else none

/-- Write one cell of the board. -/
def setCell (b : Board) (r c v : ℕ) : Board :=
  b.set r ((b.getD r []).set c v)

/-- Go `spawnTile`, with the two `rand` draws injected: `k` models
`rand.Intn(len(empty))` (any position is reachable via `k % len`), and
`four` models `rand.Float64() < 0.1`.  On a full board it is a no-op;
otherwise it writes 4 if `four` else 2 into the chosen empty cell. -/
def spawnTile (g : GameState) (k : ℕ) (four : Bool) : GameState :=
  let empty := emptyCells g.board
  if empty.length = 0 then g
  else
    let pos := empty.getD (k % empty.length) (0, 0)
    { g with board := setCell g.board pos.1 pos.2 (if four then 4 else 2) }

/-- Go `canMove`: true iff some cell is 0, or some cell equals its lower
neighbour (`r < 3`), or some cell equals its right neighbour (`c < 3`). -/
def canMove (b : Board) : Bool :=
  (List.range 4).any fun r => (List.range 4).any fun c =>
    idx b r c = 0
    ∨ (r < 3 ∧ idx b r c = idx b (r + 1) c)
    ∨ (c < 3 ∧ idx b r c = idx b r (c + 1))

/-- Whether some cell of the board holds the value `v`. -/
def hasTile (b : Board) (v : ℕ) : Bool :=
  (List.range 4).any fun r => (List.range 4).any fun c => idx b r c = v

/-- Go `checkWin`: no-op when `won` is already set, otherwise set `won`
iff some cell equals 2048. -/
def checkWin (g : GameState) : GameState :=
  if g.won then g
  else if hasTile g.board 2048 then { g with won := true } else g

/-- The direction validation of `moveHandler`
(`validDirections` map: exactly the four lowercase strings). -/
def validDirection (dir : String) : Bool :=
  dir = "up" ∨ dir = "down" ∨ dir = "left" ∨ dir = "right"

/-- The move-request sequencing of `moveHandler` (handlers.go), from the
point where the game has been loaded: reject on invalid direction;
reject, before any engine call, when `gameOver` is already set; apply
the move; exactly when it moved, spawn a tile, check the win flag, set
`gameOver` if no move remains, and save.  Returns `none` on rejection,
otherwise the state returned to the caller together with the flag that
the state was persisted. -/
def moveStep (g : GameState) (dir : String) (k : ℕ) (four : Bool) :
    Option (GameState × Bool) :=
  if validDirection dir = false then none
  else if g.gameOver then none
  else
    let p := applyMove g dir
    if p.2 then
      let g2 := spawnTile p.1 k four
      let g3 := checkWin g2
      let g4 := if canMove g3.board then g3 else { g3 with gameOver := true }
      some (g4, true)
    else
      some (p.1, false)

/-- The zero board, as Go's zero value of `[4][4]int`. -/
def zeroBoard : Board :=
  [[0, 0, 0, 0], [0, 0, 0, 0], [0, 0, 0, 0], [0, 0, 0, 0]]

/-- Total value on the board: the sum of all cells. -/
def boardSum (b : Board) : ℕ :=
  (b.map List.sum).sum

/-- The values of the tiles created by the merge scan, in scan order
(each merge of two `v` tiles creates one `2v` tile). -/
def createdTiles : List ℕ → List ℕ
  | [] => []
  | [_] => []
  | a :: b :: rest =>
    if a = b then 2 * a :: createdTiles rest
    else createdTiles (b :: rest)

/-- Every non-zero cell of the board is a power of two with exponent ≥ 1. -/
def PowBoard (b : Board) : Prop :=
  ∀ row ∈ b, ∀ x ∈ row, x ≠ 0 → ∃ k, 1 ≤ k ∧ x = 2 ^ k

/-- A fresh game state holding the given board, used in concrete test
positions. -/
def atBoard (b : Board) : GameState :=
  ⟨"g", b, 0, false, false, 0⟩

/-! ## Lemmas about the merge scan -/

theorem mergePairs_sum (l : List ℕ) : (mergePairs l).1.sum = l.sum := by
  induction l using mergePairs.induct with
  | case1 => simp [mergePairs]
  | case2 a => simp [mergePairs]
  | case3 b rest ih => simp [mergePairs, ih]; omega
  | case4 a b rest h ih => simp [mergePairs, h, ih]

theorem mergePairs_length_le (l : List ℕ) :
    (mergePairs l).1.length ≤ l.length := by
  induction l using mergePairs.induct with
  | case1 => simp [mergePairs]
  | case2 a => simp [mergePairs]
  | case3 b rest ih =>
    simp only [mergePairs, if_pos rfl, if_true, List.length_cons]
    simp only [List.length_cons] at ih
    omega
  | case4 a b rest h ih =>
    simp only [mergePairs, if_neg h, List.length_cons]
    simp only [List.length_cons] at ih
    omega

theorem mergePairs_length_lt (l : List ℕ) (h : (mergePairs l).2 ≠ 0) :
    (mergePairs l).1.length < l.length := by
  induction l using mergePairs.induct with
  | case1 => simp [mergePairs] at h
  | case2 a => simp [mergePairs] at h
  | case3 b rest ih =>
    have hle := mergePairs_length_le rest
    simp only [mergePairs, if_pos rfl, if_true, List.length_cons]
    omega
  | case4 a b rest hne ih =>
    simp only [mergePairs, if_neg hne] at h ⊢
    have := ih h
    simp only [List.length_cons] at this ⊢
    omega

theorem mergePairs_fst_eq (l : List ℕ) (hz : ∀ x ∈ l, x ≠ 0)
    (h : (mergePairs l).2 = 0) : (mergePairs l).1 = l := by
  induction l using mergePairs.induct with
  | case1 => simp [mergePairs]
  | case2 a => simp [mergePairs]
  | case3 b rest ih =>
    exfalso
    have hb : b ≠ 0 := hz b (by simp)
    simp [mergePairs] at h
    omega
  | case4 a b rest hne ih =>
    simp [mergePairs, hne] at h ⊢
    exact ih (fun x hx => hz x (List.mem_cons_of_mem a hx)) h

theorem mergePairs_ne_zero (l : List ℕ) (hz : ∀ x ∈ l, x ≠ 0) :
    ∀ x ∈ (mergePairs l).1, x ≠ 0 := by
  induction l using mergePairs.induct with
  | case1 => simp [mergePairs]
  | case2 a => simpa [mergePairs] using hz
  | case3 b rest ih =>
    have hb : b ≠ 0 := hz b (by simp)
    simp only [mergePairs, if_pos rfl, if_true]
    intro x hx
    rcases List.mem_cons.mp hx with h | h
    · omega
    · exact ih (fun y hy => hz y (by simp [hy])) x h
  | case4 a b rest hne ih =>
    simp only [mergePairs, if_neg hne]
    intro x hx
    rcases List.mem_cons.mp hx with h | h
    · exact h ▸ hz a (by simp)
    · exact ih (fun y hy => hz y (List.mem_cons_of_mem a hy)) x h

theorem mergePairs_mem (l : List ℕ) :
    ∀ x ∈ (mergePairs l).1, x ∈ l ∨ ∃ a ∈ l, x = 2 * a := by
  induction l using mergePairs.induct with
  | case1 => simp [mergePairs]
  | case2 a => simp [mergePairs]
  | case3 b rest ih =>
    simp only [mergePairs, if_pos rfl, if_true]
    intro x hx
    rcases List.mem_cons.mp hx with h | h
    · exact Or.inr ⟨b, by simp, h⟩
    · rcases ih x h with h' | ⟨a, ha, hx'⟩
      · exact Or.inl (by simp [h'])
      · exact Or.inr ⟨a, by simp [ha], hx'⟩
  | case4 a b rest hne ih =>
    simp only [mergePairs, if_neg hne]
    intro x hx
    rcases List.mem_cons.mp hx with h | h
    · exact Or.inl (by simp [h])
    · rcases ih x h with h' | ⟨c, hc, hx'⟩
      · exact Or.inl (List.mem_cons_of_mem a h')
      · exact Or.inr ⟨c, List.mem_cons_of_mem a hc, hx'⟩

theorem list_len4_elim {l : List ℕ} (h : l.length = 4) :
    ∃ a b c d, l = [a, b, c, d] := by
  match l, h with
  | [a, b, c, d], _ => exact ⟨a, b, c, d, rfl⟩

theorem wf_elim {b : Board} (h : b.Wf) :
    ∃ r0 r1 r2 r3, b = [r0, r1, r2, r3]
      ∧ r0.length = 4 ∧ r1.length = 4 ∧ r2.length = 4 ∧ r3.length = 4 := by
  obtain ⟨hlen, hrows⟩ := h
  match b, hlen with
  | [r0, r1, r2, r3], _ =>
    exact ⟨r0, r1, r2, r3, rfl, hrows r0 (by simp), hrows r1 (by simp),
      hrows r2 (by simp), hrows r3 (by simp)⟩

theorem exists_lt4 (P : ℕ → Prop) :
    (∃ i, i < 4 ∧ P i) ↔ P 0 ∨ P 1 ∨ P 2 ∨ P 3 := by
  constructor
  · rintro ⟨i, hi, hp⟩
    interval_cases i <;> tauto
  · rintro (h | h | h | h)
    · exact ⟨0, by omega, h⟩
    · exact ⟨1, by omega, h⟩
    · exact ⟨2, by omega, h⟩
    · exact ⟨3, by omega, h⟩

theorem forall_lt4 (P : ℕ → Prop) :
    (∀ i, i < 4 → P i) ↔ P 0 ∧ P 1 ∧ P 2 ∧ P 3 := by
  constructor
  · intro h
    exact ⟨h 0 (by omega), h 1 (by omega), h 2 (by omega), h 3 (by omega)⟩
  · rintro ⟨h0, h1, h2, h3⟩ i hi
    interval_cases i <;> assumption

theorem mergePairs_snd_eq (l : List ℕ) :
    (mergePairs l).2 = (createdTiles l).sum := by
  induction l using mergePairs.induct with
  | case1 => simp [mergePairs, createdTiles]
  | case2 a => simp [mergePairs, createdTiles]
  | case3 b rest ih => simp [mergePairs, createdTiles, ih]
  | case4 a b rest hne ih => simp [mergePairs, createdTiles, hne, ih]

/-! ## Frame lemmas for the engine operations -/

theorem applyMove_id (g : GameState) (dir : String) :
    (applyMove g dir).1.id = g.id := rfl

theorem applyMove_gameOver (g : GameState) (dir : String) :
    (applyMove g dir).1.gameOver = g.gameOver := rfl

theorem applyMove_won (g : GameState) (dir : String) :
    (applyMove g dir).1.won = g.won := rfl

theorem applyMove_createdAt (g : GameState) (dir : String) :
    (applyMove g dir).1.createdAt = g.createdAt := rfl

theorem spawnTile_won (g : GameState) (k : ℕ) (four : Bool) :
    (spawnTile g k four).won = g.won := by
  unfold spawnTile
  by_cases h : (emptyCells g.board).length = 0 <;> simp [h]

theorem spawnTile_gameOver (g : GameState) (k : ℕ) (four : Bool) :
    (spawnTile g k four).gameOver = g.gameOver := by
  unfold spawnTile
  by_cases h : (emptyCells g.board).length = 0 <;> simp [h]

theorem spawnTile_score (g : GameState) (k : ℕ) (four : Bool) :
    (spawnTile g k four).score = g.score := by
  unfold spawnTile
  by_cases h : (emptyCells g.board).length = 0 <;> simp [h]

theorem checkWin_board (g : GameState) : (checkWin g).board = g.board := by
  unfold checkWin
  split
  · rfl
  · split <;> rfl

theorem checkWin_gameOver (g : GameState) :
    (checkWin g).gameOver = g.gameOver := by
  unfold checkWin
  split
  · rfl
  · split <;> rfl

theorem checkWin_score (g : GameState) : (checkWin g).score = g.score := by
  unfold checkWin
  split
  · rfl
  · split <;> rfl

theorem hasTile_iff (b : Board) (v : ℕ) :
    hasTile b v = true ↔ ∃ r, r < 4 ∧ ∃ c, c < 4 ∧ idx b r c = v := by
  simp [hasTile, List.any_eq_true, List.mem_range]

theorem checkWin_won_of (g : GameState) (h : g.won = true) :
    (checkWin g).won = true := by
  simp [checkWin, h]

/-! ## Claim C1 -/

/-- C1: each tile merges at most once per move.  A left move on the row
`[2,2,2,0]` produces `[4,2,0,0]` (only the leftmost pair merges) with
score increased by 4, and on `[2,2,2,2]` produces `[4,4,0,0]` (two
independent adjacent merges) with score increased by 8. -/
theorem merge_once_per_move :
    applyMove (atBoard [[2, 2, 2, 0], [0, 0, 0, 0], [0, 0, 0, 0], [0, 0, 0, 0]]) "left"
      = (⟨"g", [[4, 2, 0, 0], [0, 0, 0, 0], [0, 0, 0, 0], [0, 0, 0, 0]], 4, false, false, 0⟩, true)
    ∧ applyMove (atBoard [[2, 2, 2, 2], [0, 0, 0, 0], [0, 0, 0, 0], [0, 0, 0, 0]]) "left"
      = (⟨"g", [[4, 4, 0, 0], [0, 0, 0, 0], [0, 0, 0, 0], [0, 0, 0, 0]], 8, false, false, 0⟩, true) := by
  constructor <;> rfl

/-! ## Claim C3 -/

/-- C3, counterexample: `applyMove` twice in the same direction is not
idempotent.  On the board with first row `[2,2,4,0]`, a left move yields
first row `[4,4,0,0]` (`moved=true`), and a second left move on that
output merges again and still returns `moved=true`, not `false`. -/
theorem applyMove_twice_not_idempotent :
    (applyMove (applyMove (atBoard [[2, 2, 4, 0], [0, 0, 0, 0], [0, 0, 0, 0], [0, 0, 0, 0]]) "left").1 "left").2
      = true := by
  rfl

/-! ## Claim C10 -/

/-- C10: both direction switches of `applyMove` have no default case, so
any direction string other than `"up"`, `"down"`, `"right"` (including
`"left"`, the empty string, `"Left"`, or arbitrary strings) gets no
rotation before or after compaction and behaves exactly like `"left"`:
same board, same score, same `moved` flag. -/
theorem applyMove_default_is_left (g : GameState) (dir : String)
    (h1 : dir ≠ "up") (h2 : dir ≠ "down") (h3 : dir ≠ "right") :
    applyMove g dir = applyMove g "left" := by
  have e1 : ("left" : String) ≠ "up" := by decide
  have e2 : ("left" : String) ≠ "down" := by decide
  have e3 : ("left" : String) ≠ "right" := by decide
  simp [applyMove, preRotate, postRotate, h1, h2, h3, e1, e2, e3]

/-- Witness for C10 at the concrete direction `"Left"`. -/
theorem applyMove_default_is_left_witness :
    ("Left" : String) ≠ "up" ∧ ("Left" : String) ≠ "down" ∧ ("Left" : String) ≠ "right"
    ∧ applyMove (atBoard [[2, 2, 0, 0], [0, 0, 0, 0], [0, 0, 0, 0], [0, 0, 0, 0]]) "Left"
        = applyMove (atBoard [[2, 2, 0, 0], [0, 0, 0, 0], [0, 0, 0, 0], [0, 0, 0, 0]]) "left" :=
  ⟨by decide, by decide, by decide,
    applyMove_default_is_left _ "Left" (by decide) (by decide) (by decide)⟩

/-! ## Claim C2 -/

/-- C2, counterexample: a move request on an existing game with
`gameOver=false` for which `applyMove` returns `moved=false` (single
tile already against the left wall, direction `"left"`) is answered
with the unchanged state but is NOT persisted: the handler's save call
sits inside `if moved { … }`.  The second component `false` is the
saved flag of the step relation. -/
theorem moveStep_unmoved_not_saved :
    moveStep (atBoard [[2, 0, 0, 0], [0, 0, 0, 0], [0, 0, 0, 0], [0, 0, 0, 0]]) "left" 0 false
      = some (⟨"g", [[2, 0, 0, 0], [0, 0, 0, 0], [0, 0, 0, 0], [0, 0, 0, 0]], 0, false, false, 0⟩, false) := by
  rfl

/-- C2, amended: the move handler persists the resulting state iff
`applyMove` returned `moved=true`; when the move changed nothing the
state is returned to the caller without any save. -/
theorem moveStep_saves_iff_moved (g : GameState) (dir : String) (k : ℕ)
    (four : Bool) (g' : GameState) (saved : Bool)
    (h : moveStep g dir k four = some (g', saved)) :
    saved = (applyMove g dir).2 := by
  unfold moveStep at h
  by_cases hv : validDirection dir = false
  · simp [hv] at h
  · simp only [hv, if_false] at h
    by_cases hgo : g.gameOver
    · simp [hgo] at h
    · simp only [hgo, if_false] at h
      cases hm : (applyMove g dir).2 <;> simp [hm] at h <;> exact h.2

/-! ## Claim C8 -/

/-- C8: `checkWin` is a no-op when `won` is already true; it results in
`won=true` exactly when `won` was already true or some cell equals 2048;
and across any move-request step the `won` flag never reverts from true
to false (it survives the 2048 tile being merged away, since `checkWin`
short-circuits on `won=true` without re-scanning). -/
theorem checkWin_won_sticky (g : GameState) (dir : String) (k : ℕ) (four : Bool) :
    (g.won = true → checkWin g = g)
    ∧ ((checkWin g).won = true
        ↔ (g.won = true ∨ ∃ r, r < 4 ∧ ∃ c, c < 4 ∧ idx g.board r c = 2048))
    ∧ (∀ g' s, moveStep g dir k four = some (g', s) → g.won = true → g'.won = true) := by
  refine ⟨fun h => by simp [checkWin, h], ?_, ?_⟩
  · by_cases hw : g.won = true
    · simp [checkWin, hw]
    · by_cases ht : hasTile g.board 2048 = true
      · rw [checkWin, if_neg (by simpa using hw), if_pos ht]
        exact iff_of_true rfl (Or.inr ((hasTile_iff _ _).mp ht))
      · rw [checkWin, if_neg (by simpa using hw), if_neg (by simpa using ht)]
        constructor
        · intro h; exact absurd h hw
        · rintro (h | ⟨r, hr, c, hc, he⟩)
          · exact absurd h hw
          · exact absurd ((hasTile_iff _ _).mpr ⟨r, hr, c, hc, he⟩) ht
  · intro g' s h hw
    unfold moveStep at h
    by_cases hv : validDirection dir = false
    · simp [hv] at h
    · simp only [hv, if_false] at h
      by_cases hgo : g.gameOver = true
      · simp [hgo] at h
      · simp only [hgo, Bool.false_eq_true, if_false] at h
        cases hm : (applyMove g dir).2
        · simp [hm] at h
          rw [← h.1, applyMove_won]
          exact hw
        · simp only [hm, if_true, Option.some.injEq, Prod.mk.injEq] at h
          have h2 : (spawnTile (applyMove g dir).1 k four).won = true := by
            rw [spawnTile_won, applyMove_won]; exact hw
          have h3 : (checkWin (spawnTile (applyMove g dir).1 k four)).won = true :=
            checkWin_won_of _ h2
          obtain ⟨hg4, -⟩ := h
          by_cases hc : canMove (checkWin (spawnTile (applyMove g dir).1 k four)).board = true
          · rw [if_pos hc]
            exact h3
          · rw [if_neg hc]
            exact h3

/-! ## Claim C6 -/

/-- C6: in the move-request step, a request on a game whose `gameOver`
flag is already true is rejected (no state transition, no engine call);
for an accepted request, the resulting `gameOver` flag is true exactly
when `applyMove` returned `moved=true` and `canMove` is false after the
subsequent spawn; and the input of any accepted step has
`gameOver=false`, so `gameOver` never reverts from true to false. -/
theorem gameOver_step (g : GameState) (dir : String) (k : ℕ) (four : Bool) :
    (g.gameOver = true → moveStep g dir k four = none)
    ∧ (∀ g' s, moveStep g dir k four = some (g', s) →
        g.gameOver = false
        ∧ (g'.gameOver = true
            ↔ ((applyMove g dir).2 = true
                ∧ canMove (spawnTile (applyMove g dir).1 k four).board = false))) := by
  constructor
  · intro h
    unfold moveStep
    by_cases hv : validDirection dir = false <;> simp [hv, h]
  · intro g' s h
    unfold moveStep at h
    by_cases hv : validDirection dir = false
    · simp [hv] at h
    · simp only [hv, if_false] at h
      by_cases hgo : g.gameOver = true
      · simp [hgo] at h
      · refine ⟨by simpa using hgo, ?_⟩
        simp only [hgo, Bool.false_eq_true, if_false] at h
        cases hm : (applyMove g dir).2
        · simp [hm] at h
          rw [← h.1, applyMove_gameOver]
          simp [hgo]
        · simp only [hm, if_true, Option.some.injEq, Prod.mk.injEq] at h
          obtain ⟨hg4, -⟩ := h
          have hb : (checkWin (spawnTile (applyMove g dir).1 k four)).board
              = (spawnTile (applyMove g dir).1 k four).board := checkWin_board _
          have hg3 : (checkWin (spawnTile (applyMove g dir).1 k four)).gameOver = false := by
            rw [checkWin_gameOver, spawnTile_gameOver, applyMove_gameOver]
            simpa using hgo
          by_cases hc : canMove (checkWin (spawnTile (applyMove g dir).1 k four)).board = true
          · rw [if_pos hc]
            rw [hb] at hc
            simp [hg3, hc]
          · rw [if_neg hc]
            rw [hb] at hc
            have hcf : canMove (spawnTile (applyMove g dir).1 k four).board = false := by
              simpa using hc
            simp [hcf]

/-- Witness for C2's amended theorem at a concrete moving request. -/
theorem moveStep_saves_iff_moved_witness :
    (true : Bool)
      = (applyMove (atBoard [[2, 2, 0, 0], [0, 0, 0, 0], [0, 0, 0, 0], [0, 0, 0, 0]]) "left").2 :=
  moveStep_saves_iff_moved _ "left" 0 false
    (⟨"g", [[4, 2, 0, 0], [0, 0, 0, 0], [0, 0, 0, 0], [0, 0, 0, 0]], 4, false, false, 0⟩) true
    (by rfl)

/-! ## Claim C4 -/

/-- C4: `canMove` returns false iff the board has no empty cell and no
two horizontally or vertically adjacent cells hold equal non-zero
values; equivalently, it returns true iff some cell is 0 or some
row-wise or column-wise adjacent pair is equal. -/
theorem canMove_characterization (b : Board) :
    (canMove b = false
      ↔ ((∀ r, r < 4 → ∀ c, c < 4 → idx b r c ≠ 0)
          ∧ (∀ r, r < 4 → ∀ c, c < 4 →
              (r < 3 → ¬(idx b r c ≠ 0 ∧ idx b r c = idx b (r + 1) c))
                ∧ (c < 3 → ¬(idx b r c ≠ 0 ∧ idx b r c = idx b r (c + 1))))))
    ∧ (canMove b = true
      ↔ ((∃ r, r < 4 ∧ ∃ c, c < 4 ∧ idx b r c = 0)
          ∨ (∃ r, r < 4 ∧ ∃ c, c < 4 ∧
              ((r < 3 ∧ idx b r c = idx b (r + 1) c)
                ∨ (c < 3 ∧ idx b r c = idx b r (c + 1)))))) := by
  have htrue : canMove b = true
      ↔ ((∃ r, r < 4 ∧ ∃ c, c < 4 ∧ idx b r c = 0)
          ∨ (∃ r, r < 4 ∧ ∃ c, c < 4 ∧
              ((r < 3 ∧ idx b r c = idx b (r + 1) c)
                ∨ (c < 3 ∧ idx b r c = idx b r (c + 1))))) := by
    simp only [canMove, List.any_eq_true, List.mem_range, decide_eq_true_eq]
    constructor
    · rintro ⟨r, hr, c, hc, h | h | h⟩
      · exact Or.inl ⟨r, hr, c, hc, h⟩
      · exact Or.inr ⟨r, hr, c, hc, Or.inl h⟩
      · exact Or.inr ⟨r, hr, c, hc, Or.inr h⟩
    · rintro (⟨r, hr, c, hc, h⟩ | ⟨r, hr, c, hc, h⟩)
      · exact ⟨r, hr, c, hc, Or.inl h⟩
      · exact ⟨r, hr, c, hc, Or.inr h⟩
  refine ⟨?_, htrue⟩
  rw [← Bool.not_eq_true, htrue]
  push_neg
  constructor
  · rintro ⟨hz, hp⟩
    exact ⟨hz, fun r hr c hc =>
      ⟨fun h3 _ => (hp r hr c hc).1 h3, fun h3 _ => (hp r hr c hc).2 h3⟩⟩
  · rintro ⟨hz, hp⟩
    exact ⟨hz, fun r hr c hc =>
      ⟨fun h3 => (hp r hr c hc).1 h3 (hz r hr c hc),
       fun h3 => (hp r hr c hc).2 h3 (hz r hr c hc)⟩⟩

/-! ## Compaction and rotation lemmas -/

theorem filter_ne_zero_sum (row : List ℕ) :
    (row.filter (fun x => x ≠ 0)).sum = row.sum := by
  induction row with
  | nil => rfl
  | cons a t ih =>
    rw [List.filter_cons]
    by_cases h : a = 0
    · rw [if_neg (by simp [h])]
      rw [ih, List.sum_cons, h, Nat.zero_add]
    · rw [if_pos (by simp [h])]
      rw [List.sum_cons, List.sum_cons, ih]

theorem compactRow_sum (row : List ℕ) : (compactRow row).1.sum = row.sum := by
  show ((mergePairs (row.filter fun x => x ≠ 0)).1
      ++ List.replicate (4 - (mergePairs (row.filter fun x => x ≠ 0)).1.length) 0).sum
    = row.sum
  rw [List.sum_append, mergePairs_sum, filter_ne_zero_sum, List.sum_replicate]
  simp

theorem compactRow_length (row : List ℕ) (h : row.length ≤ 4) :
    (compactRow row).1.length = 4 := by
  have h1 : (row.filter (fun x => x ≠ 0)).length ≤ row.length :=
    List.length_filter_le _ _
  have h2 := mergePairs_length_le (row.filter (fun x => x ≠ 0))
  show ((mergePairs (row.filter fun x => x ≠ 0)).1
      ++ List.replicate (4 - (mergePairs (row.filter fun x => x ≠ 0)).1.length) 0).length = 4
  rw [List.length_append, List.length_replicate]
  omega

theorem rotateRight_explicit (a00 a01 a02 a03 a10 a11 a12 a13
    a20 a21 a22 a23 a30 a31 a32 a33 : ℕ) :
    rotateRight [[a00, a01, a02, a03], [a10, a11, a12, a13],
        [a20, a21, a22, a23], [a30, a31, a32, a33]]
      = [[a30, a20, a10, a00], [a31, a21, a11, a01],
         [a32, a22, a12, a02], [a33, a23, a13, a03]] := rfl

theorem rotateLeft_explicit (a00 a01 a02 a03 a10 a11 a12 a13
    a20 a21 a22 a23 a30 a31 a32 a33 : ℕ) :
    rotateLeft [[a00, a01, a02, a03], [a10, a11, a12, a13],
        [a20, a21, a22, a23], [a30, a31, a32, a33]]
      = [[a03, a13, a23, a33], [a02, a12, a22, a32],
         [a01, a11, a21, a31], [a00, a10, a20, a30]] := rfl

theorem wf_rotateRight (b : Board) : (rotateRight b).Wf := by
  constructor
  · rfl
  · intro row h
    simp only [rotateRight, List.mem_map, List.mem_range] at h
    obtain ⟨i, -, rfl⟩ := h
    simp

theorem wf_rotateLeft (b : Board) : (rotateLeft b).Wf := by
  constructor
  · rfl
  · intro row h
    simp only [rotateLeft, List.mem_map, List.mem_range] at h
    obtain ⟨i, -, rfl⟩ := h
    simp

theorem wf_rotate180 (b : Board) : (rotate180 b).Wf :=
  wf_rotateRight _

theorem boardSum_rotateRight (b : Board) (h : b.Wf) :
    boardSum (rotateRight b) = boardSum b := by
  obtain ⟨r0, r1, r2, r3, rfl, h0, h1, h2, h3⟩ := wf_elim h
  obtain ⟨a00, a01, a02, a03, rfl⟩ := list_len4_elim h0
  obtain ⟨a10, a11, a12, a13, rfl⟩ := list_len4_elim h1
  obtain ⟨a20, a21, a22, a23, rfl⟩ := list_len4_elim h2
  obtain ⟨a30, a31, a32, a33, rfl⟩ := list_len4_elim h3
  rw [rotateRight_explicit]
  simp [boardSum]
  omega

theorem boardSum_rotateLeft (b : Board) (h : b.Wf) :
    boardSum (rotateLeft b) = boardSum b := by
  obtain ⟨r0, r1, r2, r3, rfl, h0, h1, h2, h3⟩ := wf_elim h
  obtain ⟨a00, a01, a02, a03, rfl⟩ := list_len4_elim h0
  obtain ⟨a10, a11, a12, a13, rfl⟩ := list_len4_elim h1
  obtain ⟨a20, a21, a22, a23, rfl⟩ := list_len4_elim h2
  obtain ⟨a30, a31, a32, a33, rfl⟩ := list_len4_elim h3
  rw [rotateLeft_explicit]
  simp [boardSum]
  omega

theorem boardSum_rotate180 (b : Board) (h : b.Wf) :
    boardSum (rotate180 b) = boardSum b := by
  rw [rotate180, boardSum_rotateRight _ (wf_rotateRight b), boardSum_rotateRight _ h]

/-! ## Claim C5 -/

theorem wf_compactBoard (b : Board) (h : b.Wf) : (compactBoard b).1.Wf := by
  obtain ⟨hlen, hrows⟩ := h
  constructor
  · simp [compactBoard, hlen]
  · intro row hr
    simp only [compactBoard, List.mem_map] at hr
    obtain ⟨r, hrb, rfl⟩ := hr
    exact compactRow_length r (le_of_eq (hrows r hrb))

theorem boardSum_compactBoard (b : Board) :
    boardSum (compactBoard b).1 = boardSum b := by
  show ((b.map fun row => (compactRow row).1).map List.sum).sum = boardSum b
  rw [List.map_map]
  unfold boardSum
  congr 1
  apply List.map_congr_left
  intro row _
  exact compactRow_sum row

theorem compactRow_snd_eq (row : List ℕ) :
    (compactRow row).2 = (createdTiles (row.filter fun x => x ≠ 0)).sum :=
  mergePairs_snd_eq _

theorem wf_preRotate (dir : String) (b : Board) (h : b.Wf) :
    (preRotate dir b).Wf := by
  unfold preRotate
  by_cases h1 : dir = "up"
  · simpa [h1] using wf_rotateLeft b
  · by_cases h2 : dir = "down"
    · simpa [h1, h2] using wf_rotateRight b
    · by_cases h3 : dir = "right"
      · simpa [h1, h2, h3] using wf_rotate180 b
      · simpa [h1, h2, h3] using h

theorem boardSum_preRotate (dir : String) (b : Board) (h : b.Wf) :
    boardSum (preRotate dir b) = boardSum b := by
  unfold preRotate
  by_cases h1 : dir = "up"
  · simpa [h1] using boardSum_rotateLeft b h
  · by_cases h2 : dir = "down"
    · simpa [h1, h2] using boardSum_rotateRight b h
    · by_cases h3 : dir = "right"
      · simpa [h1, h2, h3] using boardSum_rotate180 b h
      · simp [h1, h2, h3]

theorem boardSum_postRotate (dir : String) (b : Board) (h : b.Wf) :
    boardSum (postRotate dir b) = boardSum b := by
  unfold postRotate
  by_cases h1 : dir = "up"
  · simpa [h1] using boardSum_rotateRight b h
  · by_cases h2 : dir = "down"
    · simpa [h1, h2] using boardSum_rotateLeft b h
    · by_cases h3 : dir = "right"
      · simpa [h1, h2, h3] using boardSum_rotate180 b h
      · simp [h1, h2, h3]

/-- C5: a move never changes the total value on the board (each merge
replaces two `v` tiles by one `2v` tile), the score grows by exactly
the sum of the newly-created merged tile values, and the score is
monotonically non-decreasing. -/
theorem applyMove_sum_invariant (g : GameState) (dir : String) (h : g.board.Wf) :
    boardSum (applyMove g dir).1.board = boardSum g.board
    ∧ (applyMove g dir).1.score
        = g.score + (((preRotate dir g.board).map
            fun row => (createdTiles (row.filter fun x => x ≠ 0)).sum).sum)
    ∧ g.score ≤ (applyMove g dir).1.score := by
  have hwfpre : (preRotate dir g.board).Wf := wf_preRotate dir g.board h
  refine ⟨?_, ?_, ?_⟩
  · show boardSum (postRotate dir (compactBoard (preRotate dir g.board)).1) = boardSum g.board
    rw [boardSum_postRotate _ _ (wf_compactBoard _ hwfpre),
      boardSum_compactBoard, boardSum_preRotate _ _ h]
  · show g.score + (compactBoard (preRotate dir g.board)).2.1 = _
    congr 1
    show ((preRotate dir g.board).map fun row => (compactRow row).2).sum = _
    congr 1
    apply List.map_congr_left
    intro row _
    exact compactRow_snd_eq row
  · exact Nat.le_add_right _ _

/-- Witness for C5 at a concrete board and direction. -/
theorem applyMove_sum_invariant_witness :
    boardSum (applyMove (atBoard [[2, 2, 0, 0], [4, 0, 4, 0], [0, 0, 0, 0], [0, 0, 0, 0]]) "left").1.board
        = boardSum (atBoard [[2, 2, 0, 0], [4, 0, 4, 0], [0, 0, 0, 0], [0, 0, 0, 0]]).board
    ∧ (applyMove (atBoard [[2, 2, 0, 0], [4, 0, 4, 0], [0, 0, 0, 0], [0, 0, 0, 0]]) "left").1.score
        = (atBoard [[2, 2, 0, 0], [4, 0, 4, 0], [0, 0, 0, 0], [0, 0, 0, 0]]).score
          + (((preRotate "left" (atBoard [[2, 2, 0, 0], [4, 0, 4, 0], [0, 0, 0, 0], [0, 0, 0, 0]]).board).map
              fun row => (createdTiles (row.filter fun x => x ≠ 0)).sum).sum)
    ∧ (atBoard [[2, 2, 0, 0], [4, 0, 4, 0], [0, 0, 0, 0], [0, 0, 0, 0]]).score
        ≤ (applyMove (atBoard [[2, 2, 0, 0], [4, 0, 4, 0], [0, 0, 0, 0], [0, 0, 0, 0]]) "left").1.score :=
  applyMove_sum_invariant (atBoard [[2, 2, 0, 0], [4, 0, 4, 0], [0, 0, 0, 0], [0, 0, 0, 0]]) "left" (by decide)

/-! ## Claim C7 and supporting round-trip lemmas -/
theorem rowMoved_iff (u v : List ℕ) (hu : u.length = 4) (hv : v.length = 4) :
    rowMoved u v = true ↔ u ≠ v := by
  obtain ⟨u0, u1, u2, u3, rfl⟩ := list_len4_elim hu
  obtain ⟨v0, v1, v2, v3, rfl⟩ := list_len4_elim hv
  simp only [rowMoved, List.any_eq_true, List.mem_range, decide_eq_true_eq]
  rw [exists_lt4]
  simp
  tauto

theorem rotateLeft_rotateRight (b : Board) (h : b.Wf) :
    rotateLeft (rotateRight b) = b := by
  obtain ⟨r0, r1, r2, r3, rfl, h0, h1, h2, h3⟩ := wf_elim h
  obtain ⟨a00, a01, a02, a03, rfl⟩ := list_len4_elim h0
  obtain ⟨a10, a11, a12, a13, rfl⟩ := list_len4_elim h1
  obtain ⟨a20, a21, a22, a23, rfl⟩ := list_len4_elim h2
  obtain ⟨a30, a31, a32, a33, rfl⟩ := list_len4_elim h3
  rfl

theorem rotateRight_rotateLeft (b : Board) (h : b.Wf) :
    rotateRight (rotateLeft b) = b := by
  obtain ⟨r0, r1, r2, r3, rfl, h0, h1, h2, h3⟩ := wf_elim h
  obtain ⟨a00, a01, a02, a03, rfl⟩ := list_len4_elim h0
  obtain ⟨a10, a11, a12, a13, rfl⟩ := list_len4_elim h1
  obtain ⟨a20, a21, a22, a23, rfl⟩ := list_len4_elim h2
  obtain ⟨a30, a31, a32, a33, rfl⟩ := list_len4_elim h3
  rfl

theorem rotate180_rotate180 (b : Board) (h : b.Wf) :
    rotate180 (rotate180 b) = b := by
  obtain ⟨r0, r1, r2, r3, rfl, h0, h1, h2, h3⟩ := wf_elim h
  obtain ⟨a00, a01, a02, a03, rfl⟩ := list_len4_elim h0
  obtain ⟨a10, a11, a12, a13, rfl⟩ := list_len4_elim h1
  obtain ⟨a20, a21, a22, a23, rfl⟩ := list_len4_elim h2
  obtain ⟨a30, a31, a32, a33, rfl⟩ := list_len4_elim h3
  rfl

theorem postRotate_preRotate (dir : String) (b : Board) (h : b.Wf) :
    postRotate dir (preRotate dir b) = b := by
  unfold preRotate postRotate
  by_cases h1 : dir = "up"
  · simpa [h1] using rotateRight_rotateLeft b h
  · by_cases h2 : dir = "down"
    · simpa [h1, h2] using rotateLeft_rotateRight b h
    · by_cases h3 : dir = "right"
      · simpa [h1, h2, h3] using rotate180_rotate180 b h
      · simp [h1, h2, h3]

theorem preRotate_postRotate (dir : String) (b : Board) (h : b.Wf) :
    preRotate dir (postRotate dir b) = b := by
  unfold preRotate postRotate
  by_cases h1 : dir = "up"
  · simpa [h1] using rotateLeft_rotateRight b h
  · by_cases h2 : dir = "down"
    · simpa [h1, h2] using rotateRight_rotateLeft b h
    · by_cases h3 : dir = "right"
      · simpa [h1, h2, h3] using rotate180_rotate180 b h
      · simp [h1, h2, h3]

theorem wf_postRotate (dir : String) (b : Board) (h : b.Wf) :
    (postRotate dir b).Wf := by
  unfold postRotate
  by_cases h1 : dir = "up"
  · simpa [h1] using wf_rotateRight b
  · by_cases h2 : dir = "down"
    · simpa [h1, h2] using wf_rotateLeft b
    · by_cases h3 : dir = "right"
      · simpa [h1, h2, h3] using wf_rotate180 b
      · simpa [h1, h2, h3] using h

theorem postRotate_eq_iff (dir : String) (X b : Board) (hX : X.Wf) (hb : b.Wf) :
    postRotate dir X = b ↔ X = preRotate dir b := by
  constructor
  · intro he
    rw [← he, preRotate_postRotate dir X hX]
  · intro he
    rw [he, postRotate_preRotate dir b hb]

theorem filter_compactRow_fst (u : List ℕ) :
    ((compactRow u).1.filter fun x => x ≠ 0)
      = (mergePairs (u.filter fun x => x ≠ 0)).1 := by
  have hzf : ∀ x ∈ (mergePairs (u.filter fun x => x ≠ 0)).1, x ≠ 0 :=
    mergePairs_ne_zero _ (fun x hx => by simpa using (List.mem_filter.mp hx).2)
  show ((mergePairs (u.filter fun x => x ≠ 0)).1
      ++ List.replicate (4 - (mergePairs (u.filter fun x => x ≠ 0)).1.length) 0).filter _
    = _
  rw [List.filter_append, List.filter_eq_self.mpr (fun a ha => by simpa using hzf a ha)]
  have : (List.replicate (4 - (mergePairs (u.filter fun x => x ≠ 0)).1.length) 0).filter
      (fun x => x ≠ 0) = [] := by
    apply List.filter_eq_nil_iff.mpr
    intro a ha
    simp [List.eq_of_mem_replicate ha]
  rw [this, List.append_nil]

theorem compactRow_score_zero_of_fixed (u : List ℕ)
    (h : (compactRow u).1 = u) : (compactRow u).2 = 0 := by
  by_contra hs
  have hlt := mergePairs_length_lt (u.filter fun x => x ≠ 0) hs
  have hfix : (mergePairs (u.filter fun x => x ≠ 0)).1 = u.filter fun x => x ≠ 0 := by
    conv_rhs => rw [← h]
    rw [filter_compactRow_fst]
  rw [hfix] at hlt
  exact lt_irrefl _ hlt

theorem any4_eq_false {α : Type} (f : α → Bool) (x0 x1 x2 x3 : α)
    (h : ([x0, x1, x2, x3].any f) = false) :
    f x0 = false ∧ f x1 = false ∧ f x2 = false ∧ f x3 = false := by
  simp only [List.any_cons, List.any_nil, Bool.or_false, Bool.or_eq_false_iff] at h
  exact ⟨h.1, h.2.1, h.2.2.1, h.2.2.2⟩

theorem any4_eq_true {α : Type} (f : α → Bool) (x0 x1 x2 x3 : α) :
    ([x0, x1, x2, x3].any f) = true
      ↔ f x0 = true ∨ f x1 = true ∨ f x2 = true ∨ f x3 = true := by
  simp only [List.any_cons, List.any_nil, Bool.or_false, Bool.or_eq_true]

theorem list4_ne_iff {α : Type} (a b c d w x y z : α) :
    ([a, b, c, d] ≠ [w, x, y, z]) ↔ (a ≠ w ∨ b ≠ x ∨ c ≠ y ∨ d ≠ z) := by
  simp only [ne_eq, List.cons.injEq, and_true]
  tauto

theorem compactBoard_moved_iff (X : Board) (h : X.Wf) :
    (compactBoard X).2.2 = true ↔ (compactBoard X).1 ≠ X := by
  obtain ⟨u0, u1, u2, u3, rfl, h0, h1, h2, h3⟩ := wf_elim h
  have c0 := compactRow_length u0 (le_of_eq h0)
  have c1 := compactRow_length u1 (le_of_eq h1)
  have c2 := compactRow_length u2 (le_of_eq h2)
  have c3 := compactRow_length u3 (le_of_eq h3)
  show ([u0, u1, u2, u3].any fun row => rowMoved row (compactRow row).1) = true
    ↔ [(compactRow u0).1, (compactRow u1).1, (compactRow u2).1, (compactRow u3).1]
        ≠ [u0, u1, u2, u3]
  rw [any4_eq_true, list4_ne_iff,
    rowMoved_iff u0 _ h0 c0, rowMoved_iff u1 _ h1 c1,
    rowMoved_iff u2 _ h2 c2, rowMoved_iff u3 _ h3 c3]
  tauto

theorem compactBoard_score_zero (X : Board) (h : X.Wf)
    (hm : (compactBoard X).2.2 = false) : (compactBoard X).2.1 = 0 := by
  obtain ⟨u0, u1, u2, u3, rfl, h0, h1, h2, h3⟩ := wf_elim h
  have c0 := compactRow_length u0 (le_of_eq h0)
  have c1 := compactRow_length u1 (le_of_eq h1)
  have c2 := compactRow_length u2 (le_of_eq h2)
  have c3 := compactRow_length u3 (le_of_eq h3)
  obtain ⟨m0, m1, m2, m3⟩ :=
    any4_eq_false (fun row => rowMoved row (compactRow row).1) u0 u1 u2 u3 hm
  have e0 : (compactRow u0).1 = u0 :=
    Eq.symm (not_not.mp fun hne =>
      by rw [(rowMoved_iff u0 _ h0 c0).mpr hne] at m0; exact Bool.true_eq_false.mp m0)
  have e1 : (compactRow u1).1 = u1 :=
    Eq.symm (not_not.mp fun hne =>
      by rw [(rowMoved_iff u1 _ h1 c1).mpr hne] at m1; exact Bool.true_eq_false.mp m1)
  have e2 : (compactRow u2).1 = u2 :=
    Eq.symm (not_not.mp fun hne =>
      by rw [(rowMoved_iff u2 _ h2 c2).mpr hne] at m2; exact Bool.true_eq_false.mp m2)
  have e3 : (compactRow u3).1 = u3 :=
    Eq.symm (not_not.mp fun hne =>
      by rw [(rowMoved_iff u3 _ h3 c3).mpr hne] at m3; exact Bool.true_eq_false.mp m3)
  show ([u0, u1, u2, u3].map fun row => (compactRow row).2).sum = 0
  have s0 := compactRow_score_zero_of_fixed u0 e0
  have s1 := compactRow_score_zero_of_fixed u1 e1
  have s2 := compactRow_score_zero_of_fixed u2 e2
  have s3 := compactRow_score_zero_of_fixed u3 e3
  simp [s0, s1, s2, s3]

/-- C7: `applyMove` returns true iff some cell changed (the resulting
board differs from the input board); when it returns false the
GameState is completely unchanged (board and score included); and in
every case it leaves `id`, `gameOver`, `won`, `createdAt` untouched. -/
theorem applyMove_moved_characterization (g : GameState) (dir : String)
    (h : g.board.Wf) :
    ((applyMove g dir).2 = true ↔ (applyMove g dir).1.board ≠ g.board)
    ∧ ((applyMove g dir).2 = false → (applyMove g dir).1 = g)
    ∧ (applyMove g dir).1.id = g.id
    ∧ (applyMove g dir).1.gameOver = g.gameOver
    ∧ (applyMove g dir).1.won = g.won
    ∧ (applyMove g dir).1.createdAt = g.createdAt := by
  have hwfpre : (preRotate dir g.board).Wf := wf_preRotate dir g.board h
  have hwfcomp : (compactBoard (preRotate dir g.board)).1.Wf :=
    wf_compactBoard _ hwfpre
  refine ⟨?_, ?_, rfl, rfl, rfl, rfl⟩
  · have hmoved : (applyMove g dir).2 = (compactBoard (preRotate dir g.board)).2.2 := rfl
    have hboard : (applyMove g dir).1.board
        = postRotate dir (compactBoard (preRotate dir g.board)).1 := rfl
    rw [hmoved, hboard, compactBoard_moved_iff _ hwfpre]
    exact not_congr (postRotate_eq_iff dir _ _ hwfcomp h).symm
  · intro hm
    have hm' : (compactBoard (preRotate dir g.board)).2.2 = false := hm
    have hfix : (compactBoard (preRotate dir g.board)).1 = preRotate dir g.board := by
      by_contra hne
      rw [(compactBoard_moved_iff _ hwfpre).mpr hne] at hm'
      exact Bool.true_eq_false.mp hm'
    have hscore := compactBoard_score_zero _ hwfpre hm'
    have hshow : (applyMove g dir).1
        = { g with
            board := postRotate dir (compactBoard (preRotate dir g.board)).1,
            score := (g.score + (compactBoard (preRotate dir g.board)).2.1) } := rfl
    rw [hshow, hfix, postRotate_preRotate dir _ h, hscore]
    cases g
    simp

/-- Witness for C7 at a concrete board and direction. -/
theorem applyMove_moved_characterization_witness :
    ((applyMove (atBoard [[2, 2, 0, 0], [0, 0, 0, 0], [0, 0, 0, 0], [0, 0, 0, 0]]) "up").2 = true
      ↔ (applyMove (atBoard [[2, 2, 0, 0], [0, 0, 0, 0], [0, 0, 0, 0], [0, 0, 0, 0]]) "up").1.board
          ≠ (atBoard [[2, 2, 0, 0], [0, 0, 0, 0], [0, 0, 0, 0], [0, 0, 0, 0]]).board)
    ∧ ((applyMove (atBoard [[2, 2, 0, 0], [0, 0, 0, 0], [0, 0, 0, 0], [0, 0, 0, 0]]) "up").2 = false
        → (applyMove (atBoard [[2, 2, 0, 0], [0, 0, 0, 0], [0, 0, 0, 0], [0, 0, 0, 0]]) "up").1
            = atBoard [[2, 2, 0, 0], [0, 0, 0, 0], [0, 0, 0, 0], [0, 0, 0, 0]])
    ∧ (applyMove (atBoard [[2, 2, 0, 0], [0, 0, 0, 0], [0, 0, 0, 0], [0, 0, 0, 0]]) "up").1.id
        = (atBoard [[2, 2, 0, 0], [0, 0, 0, 0], [0, 0, 0, 0], [0, 0, 0, 0]]).id
    ∧ (applyMove (atBoard [[2, 2, 0, 0], [0, 0, 0, 0], [0, 0, 0, 0], [0, 0, 0, 0]]) "up").1.gameOver
        = (atBoard [[2, 2, 0, 0], [0, 0, 0, 0], [0, 0, 0, 0], [0, 0, 0, 0]]).gameOver
    ∧ (applyMove (atBoard [[2, 2, 0, 0], [0, 0, 0, 0], [0, 0, 0, 0], [0, 0, 0, 0]]) "up").1.won
        = (atBoard [[2, 2, 0, 0], [0, 0, 0, 0], [0, 0, 0, 0], [0, 0, 0, 0]]).won
    ∧ (applyMove (atBoard [[2, 2, 0, 0], [0, 0, 0, 0], [0, 0, 0, 0], [0, 0, 0, 0]]) "up").1.createdAt
        = (atBoard [[2, 2, 0, 0], [0, 0, 0, 0], [0, 0, 0, 0], [0, 0, 0, 0]]).createdAt :=
  applyMove_moved_characterization
    (atBoard [[2, 2, 0, 0], [0, 0, 0, 0], [0, 0, 0, 0], [0, 0, 0, 0]]) "up" (by decide)

/-! ## Claim C3, amended -/

theorem compactRow_fixed_of_score_zero (u : List ℕ)
    (h : (compactRow (compactRow u).1).2 = 0) :
    (compactRow (compactRow u).1).1 = (compactRow u).1 := by
  have hf := filter_compactRow_fst u
  have hzf : ∀ x ∈ (mergePairs (u.filter fun x => x ≠ 0)).1, x ≠ 0 :=
    mergePairs_ne_zero _ (fun x hx => by simpa using (List.mem_filter.mp hx).2)
  have h2 : (compactRow (compactRow u).1).2
      = (mergePairs (mergePairs (u.filter fun x => x ≠ 0)).1).2 := by
    show (mergePairs ((compactRow u).1.filter fun x => x ≠ 0)).2 = _
    rw [hf]
  rw [h2] at h
  have hfst : (mergePairs (mergePairs (u.filter fun x => x ≠ 0)).1).1
      = (mergePairs (u.filter fun x => x ≠ 0)).1 :=
    mergePairs_fst_eq _ hzf h
  show (mergePairs ((compactRow u).1.filter fun x => x ≠ 0)).1
      ++ List.replicate
        (4 - (mergePairs ((compactRow u).1.filter fun x => x ≠ 0)).1.length) 0
    = (compactRow u).1
  rw [hf, hfst]
  rfl

theorem compactBoard_twice_moved_iff_score (Y : Board) (h : Y.Wf) :
    (compactBoard (compactBoard Y).1).2.2 = true
      ↔ 0 < (compactBoard (compactBoard Y).1).2.1 := by
  obtain ⟨u0, u1, u2, u3, rfl, h0, h1, h2, h3⟩ := wf_elim h
  have c0 := compactRow_length u0 (le_of_eq h0)
  have c1 := compactRow_length u1 (le_of_eq h1)
  have c2 := compactRow_length u2 (le_of_eq h2)
  have c3 := compactRow_length u3 (le_of_eq h3)
  have d0 := compactRow_length (compactRow u0).1 (le_of_eq c0)
  have d1 := compactRow_length (compactRow u1).1 (le_of_eq c1)
  have d2 := compactRow_length (compactRow u2).1 (le_of_eq c2)
  have d3 := compactRow_length (compactRow u3).1 (le_of_eq c3)
  have hmv : (compactBoard (compactBoard [u0, u1, u2, u3]).1).2.2
      = ([(compactRow u0).1, (compactRow u1).1, (compactRow u2).1, (compactRow u3).1].any
          fun row => rowMoved row (compactRow row).1) := rfl
  have hsc : (compactBoard (compactBoard [u0, u1, u2, u3]).1).2.1
      = ([(compactRow u0).1, (compactRow u1).1, (compactRow u2).1, (compactRow u3).1].map
          fun row => (compactRow row).2).sum := rfl
  rw [hmv, hsc, any4_eq_true,
    rowMoved_iff _ _ c0 d0, rowMoved_iff _ _ c1 d1,
    rowMoved_iff _ _ c2 d2, rowMoved_iff _ _ c3 d3]
  have key : ∀ u : List ℕ,
      (compactRow u).1 ≠ (compactRow (compactRow u).1).1
        ↔ (compactRow (compactRow u).1).2 ≠ 0 := by
    intro u
    constructor
    · intro hne hz
      exact hne (compactRow_fixed_of_score_zero u hz).symm
    · intro hz hne
      exact hz (compactRow_score_zero_of_fixed _ hne.symm)
  rw [key u0, key u1, key u2, key u3]
  have hsum : ([(compactRow u0).1, (compactRow u1).1, (compactRow u2).1, (compactRow u3).1].map
      fun row => (compactRow row).2).sum
    = (compactRow (compactRow u0).1).2 + (compactRow (compactRow u1).1).2
      + (compactRow (compactRow u2).1).2 + (compactRow (compactRow u3).1).2 := by
    simp [Nat.add_assoc]
  rw [hsum]
  omega

/-- C3, amended: after a move, every line is compacted along the move
direction, so a second `applyMove` in the same direction (without an
intervening spawn) never merely slides tiles: it returns `moved=true`
exactly when it performs at least one merge, i.e. exactly when it
strictly increases the score.  (It is not idempotent in general, since
the first call's merges can create new adjacent equal tiles.) -/
theorem applyMove_twice_moved_iff_merge (g : GameState) (dir : String)
    (h : g.board.Wf) :
    (applyMove (applyMove g dir).1 dir).2 = true
      ↔ (applyMove g dir).1.score < (applyMove (applyMove g dir).1 dir).1.score := by
  have hwfpre : (preRotate dir g.board).Wf := wf_preRotate dir g.board h
  have hwfcomp : (compactBoard (preRotate dir g.board)).1.Wf :=
    wf_compactBoard _ hwfpre
  have hpre2 : preRotate dir (applyMove g dir).1.board
      = (compactBoard (preRotate dir g.board)).1 := by
    show preRotate dir (postRotate dir (compactBoard (preRotate dir g.board)).1) = _
    exact preRotate_postRotate dir _ hwfcomp
  have hmv : (applyMove (applyMove g dir).1 dir).2
      = (compactBoard (preRotate dir (applyMove g dir).1.board)).2.2 := rfl
  have hsc : (applyMove (applyMove g dir).1 dir).1.score
      = (applyMove g dir).1.score
        + (compactBoard (preRotate dir (applyMove g dir).1.board)).2.1 := rfl
  rw [hmv, hsc, hpre2, compactBoard_twice_moved_iff_score (preRotate dir g.board) hwfpre]
  omega

/-- Witness for the amended C3 at a concrete board and direction. -/
theorem applyMove_twice_moved_iff_merge_witness :
    (applyMove (applyMove (atBoard [[2, 2, 4, 0], [0, 0, 0, 0], [0, 0, 0, 0], [0, 0, 0, 0]]) "left").1 "left").2 = true
      ↔ (applyMove (atBoard [[2, 2, 4, 0], [0, 0, 0, 0], [0, 0, 0, 0], [0, 0, 0, 0]]) "left").1.score
          < (applyMove (applyMove (atBoard [[2, 2, 4, 0], [0, 0, 0, 0], [0, 0, 0, 0], [0, 0, 0, 0]]) "left").1 "left").1.score :=
  applyMove_twice_moved_iff_merge
    (atBoard [[2, 2, 4, 0], [0, 0, 0, 0], [0, 0, 0, 0], [0, 0, 0, 0]]) "left" (by decide)

/-! ## Claim C9 -/

theorem getD_mem_or_default {α : Type} (l : List α) (i : ℕ) (d : α) :
    l.getD i d ∈ l ∨ l.getD i d = d := by
  by_cases h : i < l.length
  · left
    rw [List.getD_eq_getElem l d h]
    exact List.getElem_mem h
  · right
    exact List.getD_eq_default l d (by omega)

theorem pow_of_idx (b : Board) (hp : PowBoard b) (r c : ℕ)
    (hne : idx b r c ≠ 0) : ∃ k, 1 ≤ k ∧ idx b r c = 2 ^ k := by
  rcases getD_mem_or_default b r [] with hrow | hrow
  · rcases getD_mem_or_default (b.getD r []) c 0 with hc | hc
    · exact hp _ hrow _ hc hne
    · exact absurd hc hne
  · rw [idx, hrow] at hne ⊢
    exact absurd List.getD_nil hne

theorem PowBoard_rotateRight (b : Board) (hp : PowBoard b) :
    PowBoard (rotateRight b) := by
  intro row hrow x hx hne
  simp only [rotateRight, List.mem_map, List.mem_range] at hrow
  obtain ⟨i, -, rfl⟩ := hrow
  simp only [List.mem_map, List.mem_range] at hx
  obtain ⟨j, -, rfl⟩ := hx
  exact pow_of_idx b hp _ _ hne

theorem PowBoard_rotateLeft (b : Board) (hp : PowBoard b) :
    PowBoard (rotateLeft b) := by
  intro row hrow x hx hne
  simp only [rotateLeft, List.mem_map, List.mem_range] at hrow
  obtain ⟨i, -, rfl⟩ := hrow
  simp only [List.mem_map, List.mem_range] at hx
  obtain ⟨j, -, rfl⟩ := hx
  exact pow_of_idx b hp _ _ hne

theorem PowBoard_preRotate (dir : String) (b : Board) (hp : PowBoard b) :
    PowBoard (preRotate dir b) := by
  unfold preRotate
  by_cases h1 : dir = "up"
  · simpa [h1] using PowBoard_rotateLeft b hp
  · by_cases h2 : dir = "down"
    · simpa [h1, h2] using PowBoard_rotateRight b hp
    · by_cases h3 : dir = "right"
      · simpa [h1, h2, h3, rotate180] using
          PowBoard_rotateRight _ (PowBoard_rotateRight b hp)
      · simpa [h1, h2, h3] using hp

theorem PowBoard_postRotate (dir : String) (b : Board) (hp : PowBoard b) :
    PowBoard (postRotate dir b) := by
  unfold postRotate
  by_cases h1 : dir = "up"
  · simpa [h1] using PowBoard_rotateRight b hp
  · by_cases h2 : dir = "down"
    · simpa [h1, h2] using PowBoard_rotateLeft b hp
    · by_cases h3 : dir = "right"
      · simpa [h1, h2, h3, rotate180] using
          PowBoard_rotateRight _ (PowBoard_rotateRight b hp)
      · simpa [h1, h2, h3] using hp

theorem PowBoard_compactBoard (b : Board) (hp : PowBoard b) :
    PowBoard (compactBoard b).1 := by
  intro row hrow x hx hne
  simp only [compactBoard, List.mem_map] at hrow
  obtain ⟨u, hu, rfl⟩ := hrow
  have hxm : x ∈ (mergePairs (u.filter fun y => y ≠ 0)).1 := by
    rcases List.mem_append.mp hx with h | h
    · exact h
    · exact absurd (List.eq_of_mem_replicate h) hne
  rcases mergePairs_mem _ x hxm with h | ⟨a, ha, rfl⟩
  · exact hp u hu x (List.mem_of_mem_filter h) hne
  · have ham : a ∈ u := List.mem_of_mem_filter ha
    have hane : a ≠ 0 := by simpa using (List.mem_filter.mp ha).2
    obtain ⟨k, hk1, hk⟩ := hp u hu a ham hane
    exact ⟨k + 1, by omega, by rw [hk]; ring⟩

theorem PowBoard_setCell (b : Board) (r c v : ℕ) (hp : PowBoard b)
    (hv : v = 2 ∨ v = 4) : PowBoard (setCell b r c v) := by
  intro row hrow x hx hne
  rcases List.mem_or_eq_of_mem_set hrow with hrb | hreq
  · exact hp row hrb x hx hne
  · subst hreq
    rcases List.mem_or_eq_of_mem_set hx with hxr | hxeq
    · rcases getD_mem_or_default b r [] with hm | hm
      · exact hp _ hm x hxr hne
      · rw [hm] at hxr
        exact absurd hxr (List.not_mem_nil x)
    · rcases hv with h | h <;> subst hxeq <;> subst h
      · exact ⟨1, le_refl 1, rfl⟩
      · exact ⟨2, by omega, rfl⟩

/-- C9: the power-of-two invariant.  If every non-zero cell of the
board is `2^k` for some `k ≥ 1`, then this still holds after
`spawnTile` (which writes only 2 or 4) and after `applyMove` (whose
compaction only moves cells or doubles them, and whose rotations only
permute them). -/
theorem powBoard_invariant (g : GameState) (k : ℕ) (four : Bool)
    (dir : String) (hp : PowBoard g.board) :
    PowBoard (spawnTile g k four).board ∧ PowBoard (applyMove g dir).1.board := by
  constructor
  · unfold spawnTile
    by_cases he : (emptyCells g.board).length = 0
    · simpa [he] using hp
    · simp only [he, if_false]
      apply PowBoard_setCell _ _ _ _ hp
      by_cases hf : four = true
      · simp [hf]
      · simp [hf]
  · show PowBoard (postRotate dir (compactBoard (preRotate dir g.board)).1)
    exact PowBoard_postRotate _ _
      (PowBoard_compactBoard _ (PowBoard_preRotate _ _ hp))


/-- Witness for C9 at a concrete board. -/
theorem powBoard_invariant_witness :
    PowBoard (spawnTile (atBoard [[2, 4, 0, 0], [0, 8, 0, 0], [0, 0, 0, 0], [0, 0, 0, 2048]]) 5 true).board
    ∧ PowBoard (applyMove (atBoard [[2, 4, 0, 0], [0, 8, 0, 0], [0, 0, 0, 0], [0, 0, 0, 2048]]) "down").1.board :=
  powBoard_invariant (atBoard [[2, 4, 0, 0], [0, 8, 0, 0], [0, 0, 0, 0], [0, 0, 0, 2048]]) 5 true "down"
    ((by
      intro row hrow x hx hne
      simp only [List.mem_cons, List.not_mem_nil, or_false] at hrow
      rcases hrow with rfl | rfl | rfl | rfl
      all_goals simp only [List.mem_cons, List.not_mem_nil, or_false] at hx
      · rcases hx with rfl | rfl | rfl | rfl
        · exact ⟨1, le_refl 1, rfl⟩
        · exact ⟨2, by omega, rfl⟩
        · exact absurd rfl hne
        · exact absurd rfl hne
      · rcases hx with rfl | rfl | rfl | rfl
        · exact absurd rfl hne
        · exact ⟨3, by omega, rfl⟩
        · exact absurd rfl hne
        · exact absurd rfl hne
      · rcases hx with rfl | rfl | rfl | rfl
        all_goals exact absurd rfl hne
      · rcases hx with rfl | rfl | rfl | rfl
        · exact absurd rfl hne
        · exact absurd rfl hne
        · exact absurd rfl hne
        · exact ⟨11, by omega, rfl⟩) :
      PowBoard [[2, 4, 0, 0], [0, 8, 0, 0], [0, 0, 0, 0], [0, 0, 0, 2048]])


/-- Witness for C8: on a state with `won` already true, `checkWin` is a
no-op. -/
theorem checkWin_won_sticky_witness :
    checkWin (⟨"g", [[0, 0, 0, 0], [0, 0, 0, 0], [0, 0, 0, 0], [0, 0, 0, 0]], 0, false, true, 0⟩ : GameState)
      = (⟨"g", [[0, 0, 0, 0], [0, 0, 0, 0], [0, 0, 0, 0], [0, 0, 0, 0]], 0, false, true, 0⟩ : GameState) :=
  (checkWin_won_sticky
    (⟨"g", [[0, 0, 0, 0], [0, 0, 0, 0], [0, 0, 0, 0], [0, 0, 0, 0]], 0, false, true, 0⟩ : GameState)
    "left" 0 false).1 rfl

/-- Witness for C6 at a concrete accepted move request. -/
theorem gameOver_step_witness :
    (atBoard [[2, 2, 0, 0], [0, 0, 0, 0], [0, 0, 0, 0], [0, 0, 0, 0]]).gameOver = false
    ∧ ((⟨"g", [[4, 2, 0, 0], [0, 0, 0, 0], [0, 0, 0, 0], [0, 0, 0, 0]], 4, false, false, 0⟩ : GameState).gameOver = true
        ↔ ((applyMove (atBoard [[2, 2, 0, 0], [0, 0, 0, 0], [0, 0, 0, 0], [0, 0, 0, 0]]) "left").2 = true
            ∧ canMove (spawnTile (applyMove (atBoard [[2, 2, 0, 0], [0, 0, 0, 0], [0, 0, 0, 0], [0, 0, 0, 0]]) "left").1 0 false).board = false)) :=
  (gameOver_step (atBoard [[2, 2, 0, 0], [0, 0, 0, 0], [0, 0, 0, 0], [0, 0, 0, 0]]) "left" 0 false).2
    (⟨"g", [[4, 2, 0, 0], [0, 0, 0, 0], [0, 0, 0, 0], [0, 0, 0, 0]], 4, false, false, 0⟩ : GameState) true (by rfl)

end Game2048
